import Mathlib

/-!
Shallow embedding of the transifex-client core (src/txclib/project.py and
src/txclib/commands.py).  Python strings are modelled as Lean strings, the
filesystem and the remote service are explicit oracles, and every failure
exit or uncaught exception of the source becomes an error value.  Helper
functions from txclib.utils, which is not part of the sources, are modelled
from the specification and marked as such in their doc comments.
-/

namespace Tx

/-- listStartsWith n h is true when n starts h, segment by segment. -/
def listStartsWith : List Char → List Char → Bool
  | [], _ => true
  | _ :: _, [] => false
  | a :: as, b :: bs => a = b && listStartsWith as bs

/-- listIsInfix n h is true when n occurs as a contiguous substring of h. -/
def listIsInfix (n : List Char) : List Char → Bool
  | [] => listStartsWith n []
  | b :: bs => listStartsWith n (b :: bs) || listIsInfix n bs

/-- Python membership a in b on strings, i.e. substring containment, as used
by project.py push (if name in resource slug) and by the project-root check
in commands.py. -/
def pyIn (a b : String) : Bool := listIsInfix a.toList b.toList

/-- strStartsWith a b is true when string b starts with string a. -/
def strStartsWith (a b : String) : Bool := listStartsWith a.toList b.toList

/-- Split a character list on a separator character, like str.split. -/
def listSplitOn (c : Char) : List Char → List (List Char)
  | [] => [[]]
  | d :: rest =>
    match listSplitOn c rest with
    | [] => if d = c then [[], []] else [[d]]
    | g :: gs => if d = c then [] :: g :: gs else (d :: g) :: gs

/-- Split a string on a separator character. -/
def strSplitOn (c : Char) (s : String) : List String :=
  (listSplitOn c s.toList).map String.mk

/-- Join strings with a separator. -/
def joinWith (sep : String) : List String → String
  | [] => ""
  | [x] => x
  | x :: xs => x ++ sep ++ joinWith sep xs

/-- Modelled from the spec: the slug charset of section 3 is word characters
plus the dash and the underscore. -/
def slugChar (c : Char) : Bool := c.isAlphanum || c = '_' || c = '-'

/-- Modelled from the spec: txclib.utils.valid_slug is not under src/.  A
composite resource identifier has the shape project_slug.resource_slug with
both slugs nonempty over the restricted charset. -/
def valid_slug (s : String) : Bool :=
  match strSplitOn '.' s with
  | [p, r] => p != "" && r != "" && p.toList.all slugChar && r.toList.all slugChar
  | _ => false

/-- Resolve the segments of a path, dropping empty and dot segments and
letting a dotdot segment pop the previous one, as os.path.normpath does on
absolute inputs. -/
def normStack (acc : List String) : List String → List String
  | [] => acc.reverse
  | s :: rest =>
    if s = "" ∨ s = "." then normStack acc rest
    else if s = ".." then normStack (acc.drop 1) rest
    else normStack (s :: acc) rest

/-- Python os.path.normpath(os.path.abspath(p)) with the project root as the
working directory; commands.py runs _go_to_dir(path_to_tx) before the checks
that use this. -/
def pyAbsPath (root p : String) : String :=
  let q := if strStartsWith "/" p then p else root ++ "/" ++ p
  "/" ++ joinWith "/" (normStack [] (strSplitOn '/' q))

/-- Drop the common leading segments of two segment lists. -/
def dropCommon : List String → List String → List String × List String
  | a :: as, b :: bs => if a = b then dropCommon as bs else (a :: as, b :: bs)
  | as, bs => (as, bs)

/-- Modelled from the spec: txclib.utils.relpath is not under src/.  The
PathResolver of section 2 computes a path relative to the project root, with
os.path.relpath semantics on absolute inputs. -/
def relpathStr (p root : String) : String :=
  let pr := dropCommon (strSplitOn '/' p) (strSplitOn '/' root)
  joinWith "/" (pr.2.map (fun _ => "..") ++ pr.1)

/-- project.py get_full_path: an absolute path is returned as is, any other
path is joined under the project root. -/
def get_full_path (root relp : String) : String :=
  if strStartsWith "/" relp then relp else root ++ "/" ++ relp

/-- Specification-side notion from section 3: a registered path, resolved
against the project root, must be a descendant of the root.  Kept separate
from the substring test of the code so the two can be compared. -/
def specDescendant (root p : String) : Bool := strStartsWith (root ++ "/") p

/-- Ordered section-based configuration, mirroring OrderedRawConfigParser as
used by commands.py: a list of sections, each an ordered key-value list. -/
abbrev Config := List (String × List (String × String))

/-- Look up a key in an ordered key-value list. -/
def lookupKV (key : String) : List (String × String) → Option String
  | [] => none
  | kv :: rest => if kv.1 = key then some kv.2 else lookupKV key rest

/-- Set a key in an ordered key-value list, overwriting in place or
appending at the end, as RawConfigParser.set does. -/
def setKV (key val : String) : List (String × String) → List (String × String)
  | [] => [(key, val)]
  | kv :: rest => if kv.1 = key then (key, val) :: rest else kv :: setKV key val rest

/-- Read a section key; none covers both a missing section and a missing
key, which in the source are the uncaught NoSectionError and NoOptionError. -/
def configGet : Config → String → String → Option String
  | [], _, _ => none
  | s :: rest, sec, key => if s.1 = sec then lookupKV key s.2 else configGet rest sec key

/-- Test whether a section exists. -/
def configHasSection : Config → String → Bool
  | [], _ => false
  | s :: rest, sec => s.1 = sec || configHasSection rest sec

/-- Set a key inside an existing section, preserving order. -/
def configSet : Config → String → String → String → Config
  | [], _, _, _ => []
  | s :: rest, sec, key, val =>
    if s.1 = sec then (s.1, setKV key val s.2) :: rest else s :: configSet rest sec key val

/-- Append a fresh empty section, as add_section does. -/
def addSection (cfg : Config) (sec : String) : Config := cfg ++ [(sec, [])]

/-- Failure exits and uncaught exceptions of commands.py, one constructor per
raise site. -/
inductive CmdError where
  | invalidSlug
  | invalidResource
  | missingLang
  | fileNotFound (p : String)
  | pathOutsideProject (p : String)
  | noSection (s : String)
  | invalidOperation
  | conflictingOptions
deriving Repr, DecidableEq

/-- commands.py _set_source_file: split and validate the resource identifier,
require the target file to exist, require the root directory to occur inside
the normalized absolute target path (Python substring containment, not a
prefix test), then record source_file and source_lang in the resource
section, creating it when absent, with the path stored relative to the
root.  An error leaves the configuration of the caller untouched. -/
def set_source_file (fileExists : String → Bool) (root resource lang path : String)
    (cfg : Config) : Except CmdError Config :=
  match strSplitOn '.' resource with
  | [proj, res] =>
    if proj = "" ∨ res = "" then .error .invalidResource
    else if lang = "" then .error .missingLang
    else if fileExists path = false then .error (.fileNotFound path)
    else
      let absp := pyAbsPath root path
      if pyIn root absp = false then .error (.pathOutsideProject path)
      else
        let sec := proj ++ "." ++ res
        let relp := relpathStr absp root
        let cfg1 := if configHasSection cfg sec then cfg else addSection cfg sec
        .ok (configSet (configSet cfg1 sec "source_file" relp) sec "source_lang" lang)
  | _ => .error .invalidResource

/-- commands.py _set_translation: split the identifier, require the root
directory to occur inside the normalized absolute target path (substring
containment), read the source_lang of the section (a missing section or key is an
uncaught ConfigParser error, modelled as noSection), refuse a language equal
to source_lang, then record trans.lang with the path relative to the root.
A missing target file only prints a warning.  An error leaves the
configuration of the caller untouched. -/
def set_translation (root resource lang path : String) (cfg : Config) :
    Except CmdError Config :=
  match strSplitOn '.' resource with
  | [proj, res] =>
    let absp := pyAbsPath root path
    if pyIn root absp = false then .error (.pathOutsideProject path)
    else
      let sec := proj ++ "." ++ res
      match configGet cfg sec "source_lang" with
      | none => .error (.noSection sec)
      | some slang =>
        if lang = slang then .error .invalidOperation
        else .ok (configSet cfg sec ("trans." ++ lang) (relpathStr absp root))
  | _ => .error .invalidResource

/-- cmd_set with the --source flag: option checks and slug validation happen
in the command before _set_source_file runs; parser.error exits before any
filesystem access, so an invalid slug never consults the fileExists oracle. -/
def cmd_set_source (fileExists : String → Bool) (root resource lang path : String)
    (cfg : Config) : Except CmdError Config :=
  if resource = "" then .error .invalidResource
  else if lang = "" then .error .missingLang
  else if valid_slug resource = false then .error .invalidSlug
  else set_source_file fileExists root resource lang path cfg

/-- cmd_set translation branch: option checks and slug validation happen in
the command before _set_translation runs. -/
def cmd_set_translation (root resource lang path : String) (cfg : Config) :
    Except CmdError Config :=
  if resource = "" ∨ lang = "" then .error .invalidResource
  else if valid_slug resource = false then .error .invalidSlug
  else set_translation root resource lang path cfg

/-- Arguments cmd_pull assembles for Project.pull after its option checks. -/
structure PullArgs where
  languages : List String
  resources : List String
  overwrite : Bool
  fetchall : Bool
  fetchsource : Bool
  force : Bool
  skip : Bool
  minimum_perc : Option Int
deriving Repr, DecidableEq

/-- cmd_pull option validation and argument assembly: the conflict between
the fetchall flag and a language filter is rejected by parser.error before
the project is opened and before any request is issued; afterwards the
comma-separated filters are split and a minimum percentage of zero collapses
to none, as in options.minimum_perc or None. -/
def cmd_pull (fetchall : Bool) (langOpt resOpt : String)
    (overwrite fetchsource force skip : Bool) (minPerc : Int) :
    Except CmdError PullArgs :=
  if fetchall && !(langOpt = "") then .error .conflictingOptions
  else
    .ok ⟨if langOpt = "" then [] else strSplitOn ',' langOpt,
         if resOpt = "" then [] else strSplitOn ',' resOpt,
         overwrite, fetchall, fetchsource, force, skip,
         if minPerc = 0 then none else some minPerc⟩

/-- One configured resource of the txdata file: slug, source language,
source file, and the language to file translation mapping. -/
structure LocalResource where
  resource_slug : String
  source_lang : String
  source_file : String
  translations : List (String × String)
deriving Repr, DecidableEq

/-- project.py push inner scan: for i, resource in enumerate(local_resources),
delete local_resources[i] when the remote slug occurs inside the local slug.
Deleting while iterating makes the iterator advance past the element that
slides into the freed slot, so after each deletion the following element is
kept without being examined. -/
def pyFilterOnce (name : String) : List LocalResource → List LocalResource
  | [] => []
  | r :: rest =>
    if pyIn name r.resource_slug then
      match rest with
      | [] => []
      | s :: rest2 => s :: pyFilterOnce name rest2
    else r :: pyFilterOnce name rest

/-- project.py push outer loop over the remote resources. -/
def classifyLocals (remotes : List String) (ls : List LocalResource) :
    List LocalResource :=
  remotes.foldl (fun acc name => pyFilterOnce name acc) ls

/-- Requests issued by the push loop, identified by slug and language. -/
inductive PushStep where
  | uploadSource (slug lang : String)
  | extractSource (slug : String)
  | uploadTrans (slug lang : String)
  | extractTrans (slug lang : String)
deriving Repr, DecidableEq

/-- Terminal state of a push run. -/
inductive PushOutcome where
  | completed
  | aborted
deriving Repr, DecidableEq

/-- Requests issued by project.py push for one resource, in program order:
source upload, source extract, then one upload and one extract per
configured translation. -/
def pushStepsOf (rs : List LocalResource) : List PushStep :=
  rs.flatMap fun r =>
    PushStep.uploadSource r.resource_slug r.source_lang ::
    PushStep.extractSource r.resource_slug ::
    (r.translations.flatMap fun lf =>
      [PushStep.uploadTrans r.resource_slug lf.1, PushStep.extractTrans r.resource_slug lf.1])

/-- Sequential execution of the push requests against a success oracle.
Every failure handler in the push loop calls sys.exit(1), so the first
failing request ends the run with an aborted outcome; nothing records a
failure set and no later request is attempted. -/
def runSteps (ok : PushStep → Bool) : List PushStep → List PushStep × PushOutcome
  | [] => ([], PushOutcome.completed)
  | s :: rest =>
    if ok s then
      let t := runSteps ok rest
      (s :: t.1, t.2)
    else ([s], PushOutcome.aborted)

/-- Result of Project.push: either the early exit for resources missing on
the remote, with nothing uploaded, or the trace of attempted requests. -/
inductive PushResult where
  | missingRemote (missing : List LocalResource)
  | ran (trace : List PushStep) (outcome : PushOutcome)
deriving Repr, DecidableEq

/-- project.py Project.push(force=False): fetch the remote resource list,
drop every local resource whose slug contains some remote slug as a
substring via the deletion scan, exit when any local resource is left over
and force is unset, otherwise iterate all configured resources uploading
files until the first failure.  The source function accepts no skip
argument and no resource or language filter. -/
def project_push (force : Bool) (remotes : List String) (rs : List LocalResource)
    (ok : PushStep → Bool) : PushResult :=
  if classifyLocals remotes rs ≠ [] ∧ force = false then
    PushResult.missingRemote (classifyLocals remotes rs)
  else
    PushResult.ran (runSteps ok (pushStepsOf rs)).1 (runSteps ok (pushStepsOf rs)).2

/-- Target of one pull write: the configured path, with the suffix .new
appended when overwrite is unset, per local_file in project.py pull. -/
def pullTarget (overwrite : Bool) (lf : String × String) : String :=
  if overwrite then lf.2 else lf.2 ++ ".new"

/-- One write of the pull loop: the written content is the server response
for the resource and language. -/
def pullWriteStep (overwrite : Bool) (content : String → String → String)
    (slug : String) (acc : String → Option String) (lf : String × String) :
    String → Option String :=
  fun q => if q = pullTarget overwrite lf then some (content slug lf.1) else acc q

/-- Writes performed for one resource, over its translation mapping. -/
def pullResourceWrites (overwrite : Bool) (content : String → String → String)
    (r : LocalResource) (acc : String → Option String) : String → Option String :=
  r.translations.foldl (pullWriteStep overwrite content r.resource_slug) acc

/-- project.py Project.pull(language=None, overwrite=True): for every
configured resource and every configured translation, request the file and
write the response.  No completion percentage is consulted and the source
function has no minimum_perc parameter, no language or resource filter, no
fetchall and no skip argument. -/
def project_pull (overwrite : Bool) (content : String → String → String)
    (rs : List LocalResource) (fs : String → Option String) :
    String → Option String :=
  rs.foldl (fun acc r => pullResourceWrites overwrite content r acc) fs

/-- commands.py _auto_local walk fold, lines 263 to 274: a file capturing the
source language becomes the source file only while none is set; every other
match overwrites the slot of its language in translation_files. -/
def autoLocalStep (matchf : String → Option String) (slang : String)
    (st : Option String × (String → Option String)) (f : String) :
    Option String × (String → Option String) :=
  match matchf f with
  | none => st
  | some lang =>
    if lang = slang ∧ st.1 = none then (some f, st.2)
    else (st.1, fun l => if l = lang then some f else st.2 l)

/-- The whole walk of _auto_local over the files in walk order, starting
from the explicitly supplied source file, when any. -/
def autoLocalScan (matchf : String → Option String) (slang : String)
    (sf0 : Option String) (files : List String) :
    Option String × (String → Option String) :=
  files.foldl (autoLocalStep matchf slang) (sf0, fun _ => none)

/-- Tokens of a file-path expression: literal characters, the language
placeholder, and the wildcard. -/
inductive PatTok where
  | lit (c : Char)
  | lang
  | star
deriving Repr, DecidableEq

/-- Modelled from the spec: txclib.utils.regex_from_filefilter is not under
src/.  Tokenize an expression, keeping the placeholder as a capturing group
and the star as a wildcard over non-separator characters, which the section
8 example relies on; everything else matches literally. -/
def tokenize : List Char → List PatTok
  | [] => []
  | '<' :: 'l' :: 'a' :: 'n' :: 'g' :: '>' :: rest => PatTok.lang :: tokenize rest
  | '*' :: rest => PatTok.star :: tokenize rest
  | c :: rest => PatTok.lit c :: tokenize rest

/-- Modelled from the spec: language codes are built from letters, digits,
the underscore and the dash (section 4.2, step 2). -/
def langChar (c : Char) : Bool := c.isAlphanum || c = '_' || c = '-'

/-- Fueled backtracking matcher for tokenized expressions: a full match of
the character list returns the characters captured by the placeholder group,
taken as the maximal run of language characters, which the separator that
follows the group in the patterns of interest makes exact. -/
def reMatch : Nat → List PatTok → List Char → Option (List Char) → Option (List Char)
  | 0, _, _, _ => none
  | _ + 1, [], [], cap => cap
  | _ + 1, [], _ :: _, _ => none
  | _ + 1, PatTok.lit _ :: _, [], _ => none
  | fuel + 1, PatTok.lit c :: ts, d :: s, cap =>
    if c = d then reMatch fuel ts s cap else none
  | fuel + 1, PatTok.star :: ts, s, cap =>
    match reMatch fuel ts s cap with
    | some r => some r
    | none =>
      match s with
      | [] => none
      | d :: rest => if d = '/' then none else reMatch fuel (PatTok.star :: ts) rest cap
  | _ + 1, PatTok.lang :: _, [], _ => none
  | fuel + 1, PatTok.lang :: ts, d :: s, _ =>
    if langChar d then
      let run := (d :: s).takeWhile langChar
      reMatch fuel ts ((d :: s).drop run.length) (some run)
    else none

/-- Match one expression against an absolute path and return the captured
language code, as the compiled expression of _auto_local does. -/
def exprMatch (expr : String) (p : String) : Option String :=
  (reMatch 200 (tokenize expr.toList) p.toList none).map String.mk

/-! Lemmas about the _auto_local walk fold. -/

theorem autoLocalStep_match (matchf : String → Option String) (slang : String)
    (st : Option String × (String → Option String)) (f lang : String)
    (hm : matchf f = some lang) :
    autoLocalStep matchf slang st f =
      if lang = slang ∧ st.1 = none then (some f, st.2)
      else (st.1, fun l => if l = lang then some f else st.2 l) := by
  unfold autoLocalStep
  rw [hm]

theorem autoLocalStep_fst_some (matchf : String → Option String) (slang : String)
    (st : Option String × (String → Option String)) (f x : String)
    (h : st.1 = some x) : (autoLocalStep matchf slang st f).1 = some x := by
  unfold autoLocalStep
  cases hm : matchf f with
  | none => exact h
  | some lang =>
    dsimp only
    by_cases hc : lang = slang ∧ st.1 = none
    · rw [h] at hc
      simp at hc
    · rw [if_neg hc]
      exact h

theorem autoLocal_foldl_fst_some (matchf : String → Option String) (slang x : String) :
    ∀ (files : List String) (st : Option String × (String → Option String)),
      st.1 = some x →
      (files.foldl (autoLocalStep matchf slang) st).1 = some x := by
  intro files
  induction files with
  | nil => intro st h; exact h
  | cons g gs ih =>
    intro st h
    rw [List.foldl_cons]
    exact ih _ (autoLocalStep_fst_some matchf slang st g x h)

theorem autoLocal_foldl_fst_isSome (matchf : String → Option String) (slang : String)
    (files : List String) (st : Option String × (String → Option String))
    (h : st.1.isSome) :
    ((files.foldl (autoLocalStep matchf slang) st).1).isSome := by
  obtain ⟨x, hx⟩ := Option.isSome_iff_exists.mp h
  rw [autoLocal_foldl_fst_some matchf slang x files st hx]
  rfl

theorem autoLocal_fst_isSome_of_match (matchf : String → Option String) (slang : String) :
    ∀ (files : List String) (st : Option String × (String → Option String)),
      (∃ g ∈ files, matchf g = some slang) →
      ((files.foldl (autoLocalStep matchf slang) st).1).isSome := by
  intro files
  induction files with
  | nil => intro st h; simp at h
  | cons g gs ih =>
    intro st h
    rcases h with ⟨g0, hg0, hm⟩
    rw [List.foldl_cons]
    rcases List.mem_cons.mp hg0 with rfl | hmem
    · refine autoLocal_foldl_fst_isSome matchf slang gs _ ?_
      unfold autoLocalStep
      rw [hm]
      dsimp only
      by_cases hc : slang = slang ∧ st.1 = none
      · rw [if_pos hc]
        rfl
      · rw [if_neg hc]
        have hne : st.1 ≠ none := fun hn => hc ⟨rfl, hn⟩
        simpa [Option.isSome_iff_ne_none] using hne
    · exact ih _ ⟨g0, hmem, hm⟩

theorem autoLocal_foldl_snd_untouched (matchf : String → Option String) (slang c : String) :
    ∀ (files : List String) (st : Option String × (String → Option String)),
      (∀ g ∈ files, matchf g ≠ some c) →
      (files.foldl (autoLocalStep matchf slang) st).2 c = st.2 c := by
  intro files
  induction files with
  | nil => intro st _; rfl
  | cons g gs ih =>
    intro st h
    have hg : matchf g ≠ some c := h g (List.mem_cons_self g gs)
    have hstep : (autoLocalStep matchf slang st g).2 c = st.2 c := by
      unfold autoLocalStep
      cases hm : matchf g with
      | none => rfl
      | some lang =>
        dsimp only
        by_cases hc : lang = slang ∧ st.1 = none
        · rw [if_pos hc]
        · rw [if_neg hc]
          have hlc : c ≠ lang := fun he => hg (by rw [hm, he])
          simp [hlc]
    rw [List.foldl_cons, ih _ (fun g2 hg2 => h g2 (List.mem_cons_of_mem _ hg2)), hstep]

theorem autoLocal_foldl_snd_some (matchf : String → Option String) (slang c : String) :
    ∀ (files : List String) (st : Option String × (String → Option String)) (v : String),
      st.2 c = some v →
      ∃ w, (files.foldl (autoLocalStep matchf slang) st).2 c = some w := by
  intro files
  induction files with
  | nil => intro st v h; exact ⟨v, h⟩
  | cons g gs ih =>
    intro st v h
    rw [List.foldl_cons]
    have hstep : ∃ w, (autoLocalStep matchf slang st g).2 c = some w := by
      unfold autoLocalStep
      cases hm : matchf g with
      | none => exact ⟨v, h⟩
      | some lang =>
        dsimp only
        by_cases hc : lang = slang ∧ st.1 = none
        · rw [if_pos hc]; exact ⟨v, h⟩
        · rw [if_neg hc]
          by_cases hcl : c = lang
          · exact ⟨g, by simp [hcl]⟩
          · exact ⟨v, by simp [hcl, h]⟩
    obtain ⟨w, hw⟩ := hstep
    exact ih _ w hw

theorem autoLocal_foldl_fst_nomatch (matchf : String → Option String) (slang : String) :
    ∀ (files : List String) (st : Option String × (String → Option String)),
      (∀ g ∈ files, matchf g ≠ some slang) →
      (files.foldl (autoLocalStep matchf slang) st).1 = st.1 := by
  intro files
  induction files with
  | nil => intro st _; rfl
  | cons g gs ih =>
    intro st h
    have hg : matchf g ≠ some slang := h g (List.mem_cons_self g gs)
    have hstep : (autoLocalStep matchf slang st g).1 = st.1 := by
      unfold autoLocalStep
      cases hm : matchf g with
      | none => rfl
      | some lang =>
        dsimp only
        have hls : ¬ (lang = slang ∧ st.1 = none) := by
          rintro ⟨rfl, -⟩
          exact hg hm
        rw [if_neg hls]
    rw [List.foldl_cons, ih _ (fun g2 hg2 => h g2 (List.mem_cons_of_mem _ hg2)), hstep]

/-! Lemmas about the pull write loop. -/

theorem pullTarget_false (lf : String × String) : pullTarget false lf = lf.2 ++ ".new" := rfl

theorem pull_foldl_frame (o : Bool) (content : String → String → String) (slug p : String) :
    ∀ (ts : List (String × String)) (acc : String → Option String),
      (∀ lf ∈ ts, pullTarget o lf ≠ p) →
      (ts.foldl (pullWriteStep o content slug) acc) p = acc p := by
  intro ts
  induction ts with
  | nil => intro acc _; rfl
  | cons lf ts ih =>
    intro acc h
    rw [List.foldl_cons, ih _ (fun x hx => h x (List.mem_cons_of_mem _ hx))]
    unfold pullWriteStep
    rw [if_neg (Ne.symm (h lf (List.mem_cons_self lf ts)))]

theorem pull_foldl_some (o : Bool) (content : String → String → String) (slug p : String) :
    ∀ (ts : List (String × String)) (acc : String → Option String) (v : String),
      acc p = some v →
      ∃ w, (ts.foldl (pullWriteStep o content slug) acc) p = some w := by
  intro ts
  induction ts with
  | nil => intro acc v h; exact ⟨v, h⟩
  | cons lf ts ih =>
    intro acc v h
    rw [List.foldl_cons]
    by_cases hp : p = pullTarget o lf
    · exact ih _ (content slug lf.1) (by unfold pullWriteStep; rw [if_pos hp])
    · exact ih _ v (by unfold pullWriteStep; rw [if_neg hp]; exact h)

theorem pull_outer_frame (o : Bool) (content : String → String → String) (p : String) :
    ∀ (rs : List LocalResource) (acc : String → Option String),
      (∀ r ∈ rs, ∀ lf ∈ r.translations, pullTarget o lf ≠ p) →
      (rs.foldl (fun a r => pullResourceWrites o content r a) acc) p = acc p := by
  intro rs
  induction rs with
  | nil => intro acc _; rfl
  | cons r rs ih =>
    intro acc h
    rw [List.foldl_cons, ih _ (fun x hx lf hlf => h x (List.mem_cons_of_mem _ hx) lf hlf)]
    unfold pullResourceWrites
    exact pull_foldl_frame o content r.resource_slug p r.translations acc
      (h r (List.mem_cons_self r rs))

theorem pull_outer_some (o : Bool) (content : String → String → String) (p : String) :
    ∀ (rs : List LocalResource) (acc : String → Option String) (v : String),
      acc p = some v →
      ∃ w, (rs.foldl (fun a r => pullResourceWrites o content r a) acc) p = some w := by
  intro rs
  induction rs with
  | nil => intro acc v h; exact ⟨v, h⟩
  | cons r rs ih =>
    intro acc v h
    rw [List.foldl_cons]
    obtain ⟨w, hw⟩ := pull_foldl_some o content r.resource_slug p r.translations acc v h
    exact ih _ w hw

theorem project_pull_written (o : Bool) (content : String → String → String)
    (rs : List LocalResource) (fs : String → Option String) (r : LocalResource)
    (lf : String × String) (hr : r ∈ rs) (hlf : lf ∈ r.translations) :
    ∃ v, project_pull o content rs fs (pullTarget o lf) = some v := by
  obtain ⟨s1, s2, hsp⟩ := List.append_of_mem hr
  unfold project_pull
  rw [hsp, List.foldl_append, List.foldl_cons]
  have hinner : ∃ v, (pullResourceWrites o content r
      (List.foldl (fun a r2 => pullResourceWrites o content r2 a) fs s1))
        (pullTarget o lf) = some v := by
    obtain ⟨t1, t2, ht⟩ := List.append_of_mem hlf
    unfold pullResourceWrites
    rw [ht, List.foldl_append, List.foldl_cons]
    exact pull_foldl_some o content r.resource_slug (pullTarget o lf) t2 _
      (content r.resource_slug lf.1) (by unfold pullWriteStep; rw [if_pos rfl])
  obtain ⟨v, hv⟩ := hinner
  exact pull_outer_some o content (pullTarget o lf) s2 _ v hv

/-! Lemmas about the push classification scan. -/

theorem pyFilterOnce_keeps_aux (name : String) (r : LocalResource)
    (hr : pyIn name r.resource_slug = false) :
    ∀ (n : Nat) (rs : List LocalResource), rs.length ≤ n → r ∈ rs →
      r ∈ pyFilterOnce name rs := by
  intro n
  induction n with
  | zero =>
    intro rs hlen hmem
    have hz : rs = [] := List.eq_nil_of_length_eq_zero (Nat.le_zero.mp hlen)
    rw [hz] at hmem
    simp at hmem
  | succ n ih =>
    intro rs hlen hmem
    cases rs with
    | nil => simp at hmem
    | cons r0 rest =>
      unfold pyFilterOnce
      by_cases h0 : pyIn name r0.resource_slug = true
      · rw [if_pos h0]
        cases rest with
        | nil =>
          have he : r = r0 := by simpa using hmem
          rw [he] at hr
          rw [h0] at hr
          simp at hr
        | cons s rest2 =>
          rcases List.mem_cons.mp hmem with he | hm2
          · rw [he] at hr
            rw [h0] at hr
            simp at hr
          · rcases List.mem_cons.mp hm2 with he2 | hm3
            · rw [he2]
              exact List.mem_cons_self s (pyFilterOnce name rest2)
            · refine List.mem_cons_of_mem s (ih rest2 ?_ hm3)
              simp at hlen
              omega
      · rw [if_neg h0]
        rcases List.mem_cons.mp hmem with he | hm2
        · rw [he]
          exact List.mem_cons_self r0 (pyFilterOnce name rest)
        · refine List.mem_cons_of_mem r0 (ih rest ?_ hm2)
          simp at hlen
          omega

theorem classifyLocals_keeps (remotes : List String) (r : LocalResource) :
    ∀ (rs : List LocalResource), r ∈ rs →
      (∀ name ∈ remotes, pyIn name r.resource_slug = false) →
      r ∈ classifyLocals remotes rs := by
  induction remotes with
  | nil => intro rs hmem _; exact hmem
  | cons name rest ih =>
    intro rs hmem hall
    have h1 : r ∈ pyFilterOnce name rs :=
      pyFilterOnce_keeps_aux name r (hall name (List.mem_cons_self name rest))
        rs.length rs (Nat.le_refl _) hmem
    unfold classifyLocals
    rw [List.foldl_cons]
    exact ih (pyFilterOnce name rs) h1 (fun nm hn => hall nm (List.mem_cons_of_mem _ hn))

/-! Claim theorems. -/

/-- C1: the claim says that with skip_errors set a per-file upload failure is
recorded and the push continues to the remaining files and resources, while
without it the first failure aborts; Project.push in project.py accepts no
skip argument at all and every failure handler calls sys.exit(1).  On a push
of three resources where the source upload of the second resource fails, the
run attempts the requests of the first resource and the failing upload, then
aborts: the third resource, whose translation is configured, is never
attempted and no failure set is reported. -/
theorem c1_push_aborts_on_first_failure :
    project_push false ["alpha", "beta", "gamma"]
      [LocalResource.mk "alpha" "en" "a.po" [],
       LocalResource.mk "beta" "en" "b.po" [],
       LocalResource.mk "gamma" "en" "c.po" [("de", "c_de.po")]]
      (fun s => !(s == PushStep.uploadSource "beta" "en"))
    = PushResult.ran
        [PushStep.uploadSource "alpha" "en", PushStep.extractSource "alpha",
         PushStep.uploadSource "beta" "en"]
        PushOutcome.aborted := by
  decide

/-- C2: the claim says a translation is fetched and written only when the
reported completion percentage reaches minimum_perc; Project.pull in
project.py consults no completion percentage and has no minimum_perc
parameter, so the file of a language reported below any threshold is
written unconditionally. -/
theorem c2_pull_ignores_minimum_perc :
    project_pull true (fun slug lang => slug ++ ":" ++ lang)
      [LocalResource.mk "res" "en" "src.po" [("de", "po/de.po")]]
      (fun _ => none) "po/de.po" = some "res:de" := by
  decide

/-- C3 counterexample: the claim says a file whose captured code equals the
source language is excluded from the translation mapping in all cases; with
an explicitly supplied source file the walk records such a file under the
source-language key. -/
theorem c3_counterexample :
    (autoLocalScan (exprMatch "/proj/loc/<lang>/*.po") "en" (some "/explicit.po")
        ["/proj/loc/en/app.po"]).2 "en" = some "/proj/loc/en/app.po" := by
  decide

/-- C3 amended: a file capturing the source language becomes the candidate
source only when no source file is set at the time it is encountered, and
exactly then is it excluded from the translation mapping.  Parts: an
explicitly supplied source file is never replaced; with no explicit source
the first source-language match becomes the source; with an explicit source
a source-language match lands in the translation mapping; and the file
chosen as source is excluded when no other source-language match follows. -/
theorem c3_source_selection :
    (∀ (matchf : String → Option String) (slang s0 : String) (files : List String),
        (autoLocalScan matchf slang (some s0) files).1 = some s0) ∧
    (∀ (matchf : String → Option String) (slang : String) (l1 l2 : List String)
        (f : String),
        (∀ g ∈ l1, matchf g ≠ some slang) → matchf f = some slang →
        (autoLocalScan matchf slang none (l1 ++ f :: l2)).1 = some f) ∧
    (∀ (matchf : String → Option String) (slang s0 : String) (l1 l2 : List String)
        (f : String),
        matchf f = some slang → (∀ g ∈ l2, matchf g ≠ some slang) →
        (autoLocalScan matchf slang (some s0) (l1 ++ f :: l2)).2 slang = some f) ∧
    (∀ (matchf : String → Option String) (slang : String) (l1 l2 : List String)
        (f : String),
        (∀ g ∈ l1, matchf g ≠ some slang) → matchf f = some slang →
        (∀ g ∈ l2, matchf g ≠ some slang) →
        (autoLocalScan matchf slang none (l1 ++ f :: l2)).2 slang = none) := by
  refine ⟨?_, ?_, ?_, ?_⟩
  · intro matchf slang s0 files
    exact autoLocal_foldl_fst_some matchf slang s0 files _ rfl
  · intro matchf slang l1 l2 f h1 hf
    unfold autoLocalScan
    rw [List.foldl_append, List.foldl_cons]
    have hfst : (List.foldl (autoLocalStep matchf slang) (none, fun _ => none) l1).1 = none :=
      autoLocal_foldl_fst_nomatch matchf slang l1 _ h1
    apply autoLocal_foldl_fst_some
    rw [autoLocalStep_match matchf slang _ f slang hf]
    rw [if_pos ⟨rfl, hfst⟩]
  · intro matchf slang s0 l1 l2 f hf hl2
    unfold autoLocalScan
    rw [List.foldl_append, List.foldl_cons]
    rw [autoLocal_foldl_snd_untouched matchf slang slang l2 _ hl2]
    have hsome : (List.foldl (autoLocalStep matchf slang) (some s0, fun _ => none) l1).1
        = some s0 :=
      autoLocal_foldl_fst_some matchf slang s0 l1 _ rfl
    rw [autoLocalStep_match matchf slang _ f slang hf]
    rw [if_neg (by rw [hsome]; rintro ⟨-, h⟩; exact Option.noConfusion h)]
    simp
  · intro matchf slang l1 l2 f h1 hf hl2
    unfold autoLocalScan
    rw [List.foldl_append, List.foldl_cons]
    rw [autoLocal_foldl_snd_untouched matchf slang slang l2 _ hl2]
    have hfst : (List.foldl (autoLocalStep matchf slang) (none, fun _ => none) l1).1 = none :=
      autoLocal_foldl_fst_nomatch matchf slang l1 _ h1
    have hsnd : (List.foldl (autoLocalStep matchf slang) (none, fun _ => none) l1).2 slang
        = none :=
      autoLocal_foldl_snd_untouched matchf slang slang l1 _ h1
    rw [autoLocalStep_match matchf slang _ f slang hf]
    rw [if_pos ⟨rfl, hfst⟩]
    exact hsnd

/-- Witness for c3_source_selection on a concrete walk: the single
source-language match becomes the source and is excluded from the mapping. -/
theorem c3_source_selection_witness :
    (autoLocalScan (exprMatch "/proj/loc/<lang>/*.po") "en" none
        ([] ++ "/proj/loc/en/app.po" :: ["/proj/loc/de/app.po"])).2 "en" = none :=
  c3_source_selection.2.2.2 (exprMatch "/proj/loc/<lang>/*.po") "en" []
    ["/proj/loc/de/app.po"] "/proj/loc/en/app.po" (by simp) (by decide) (by decide)

/-- C4: when two or more matching files capture the same language code, the
walk binds that code to the last such file in walk order; on the tree
loc/en/app.po, loc/de/app.po, loc/de/app2.po with expression
loc/<lang>/*.po and source language en, the scan selects loc/en/app.po as
source, binds de to loc/de/app2.po, discarding loc/de/app.po, and binds
nothing for en. -/
theorem c4_last_match_wins :
    (∀ (matchf : String → Option String) (slang : String) (sf0 : Option String)
        (l1 l2 : List String) (f c : String),
        matchf f = some c →
        (∃ g ∈ l1, matchf g = some c) →
        (∀ g ∈ l2, matchf g ≠ some c) →
        (autoLocalScan matchf slang sf0 (l1 ++ f :: l2)).2 c = some f) ∧
    (autoLocalScan (exprMatch "/proj/loc/<lang>/*.po") "en" none
        ["/proj/loc/en/app.po", "/proj/loc/de/app.po", "/proj/loc/de/app2.po"]).1
      = some "/proj/loc/en/app.po" ∧
    (autoLocalScan (exprMatch "/proj/loc/<lang>/*.po") "en" none
        ["/proj/loc/en/app.po", "/proj/loc/de/app.po", "/proj/loc/de/app2.po"]).2 "de"
      = some "/proj/loc/de/app2.po" ∧
    (autoLocalScan (exprMatch "/proj/loc/<lang>/*.po") "en" none
        ["/proj/loc/en/app.po", "/proj/loc/de/app.po", "/proj/loc/de/app2.po"]).2 "en"
      = none := by
  refine ⟨?_, by decide, by decide, by decide⟩
  intro matchf slang sf0 l1 l2 f c hf hex hl2
  unfold autoLocalScan
  rw [List.foldl_append, List.foldl_cons]
  rw [autoLocal_foldl_snd_untouched matchf slang c l2 _ hl2]
  rw [autoLocalStep_match matchf slang _ f c hf]
  by_cases hc : c = slang ∧ (List.foldl (autoLocalStep matchf slang) (sf0, fun _ => none) l1).1 = none
  · obtain ⟨hcs, hnone⟩ := hc
    subst hcs
    have hs := autoLocal_fst_isSome_of_match matchf c l1 (sf0, fun _ => none) hex
    rw [hnone] at hs
    simp at hs
  · rw [if_neg hc]
    simp

/-- Witness for c4_last_match_wins: the generic last-match-wins part applied
to the example walk, with the earlier de match discharged concretely. -/
theorem c4_last_match_wins_witness :
    (autoLocalScan (exprMatch "/proj/loc/<lang>/*.po") "en" none
        (["/proj/loc/en/app.po", "/proj/loc/de/app.po"] ++ "/proj/loc/de/app2.po" :: [])).2 "de"
      = some "/proj/loc/de/app2.po" :=
  c4_last_match_wins.1 (exprMatch "/proj/loc/<lang>/*.po") "en" none
    ["/proj/loc/en/app.po", "/proj/loc/de/app.po"] [] "/proj/loc/de/app2.po" "de"
    (by decide) ⟨"/proj/loc/de/app.po", by decide, by decide⟩ (by simp)

/-- A valid slug splits into exactly two nonempty parts on the dot. -/
theorem valid_slug_shape (s : String) (h : valid_slug s = true) :
    ∃ p r, strSplitOn '.' s = [p, r] ∧ p ≠ "" ∧ r ≠ "" := by
  unfold valid_slug at h
  rcases hs : strSplitOn '.' s with _ | ⟨p, _ | ⟨r, _ | ⟨x, xs⟩⟩⟩ <;> rw [hs] at h
  · simp at h
  · simp at h
  · refine ⟨p, r, rfl, ?_, ?_⟩ <;>
      simp only [Bool.and_eq_true, bne_iff_ne, ne_eq] at h
    · exact h.1.1.1
    · exact h.1.1.2
  · simp at h

/-- A valid slug is nonempty. -/
theorem valid_slug_ne_empty (s : String) (h : valid_slug s = true) : s ≠ "" := by
  rintro rfl
  exact absurd h (by decide)

/-- C5 counterexample: the claim says every slug matching the charset rule
makes set_source succeed; a matching slug with a missing target file fails
with the file-not-found error instead. -/
theorem c5_counterexample :
    valid_slug "p.r" = true ∧
    cmd_set_source (fun _ => false) "/proj" "p.r" "en" "x.po" []
      = Except.error (CmdError.fileNotFound "x.po") := by
  refine ⟨by decide, by rfl⟩

/-- C5 amended: a slug matching the charset rule passes validation — the
operation never fails with the slug validation error and succeeds when its
remaining preconditions hold (the file exists and the path passes the root
check for set_source; the path passes the root check, the section exists,
and the language differs from the source language for set_translation) —
while a slug not matching the rule makes both operations fail with the
validation error for every state of the filesystem oracle, before any config
mutation. -/
theorem c5_slug_validation :
    (∀ (fe : String → Bool) (root resource lang path : String) (cfg : Config),
        resource ≠ "" → lang ≠ "" → valid_slug resource = false →
        cmd_set_source fe root resource lang path cfg
            = Except.error CmdError.invalidSlug ∧
        cmd_set_translation root resource lang path cfg
            = Except.error CmdError.invalidSlug) ∧
    (∀ (fe : String → Bool) (root resource lang path : String) (cfg : Config),
        valid_slug resource = true → lang ≠ "" → fe path = true →
        pyIn root (pyAbsPath root path) = true →
        ∃ cfg2, cmd_set_source fe root resource lang path cfg = Except.ok cfg2) ∧
    (∀ (root resource lang path : String) (cfg : Config) (proj res slang : String),
        valid_slug resource = true → strSplitOn '.' resource = [proj, res] →
        pyIn root (pyAbsPath root path) = true →
        configGet cfg (proj ++ "." ++ res) "source_lang" = some slang →
        lang ≠ slang → lang ≠ "" →
        ∃ cfg2, cmd_set_translation root resource lang path cfg = Except.ok cfg2) := by
  refine ⟨?_, ?_, ?_⟩
  · intro fe root resource lang path cfg h1 h2 h3
    constructor
    · unfold cmd_set_source
      rw [if_neg h1, if_neg h2, if_pos h3]
    · unfold cmd_set_translation
      rw [if_neg (by simp [h1, h2]), if_pos h3]
  · intro fe root resource lang path cfg hv hlang hfe hpi
    have hres : resource ≠ "" := valid_slug_ne_empty resource hv
    obtain ⟨p, r, hs, hp, hr⟩ := valid_slug_shape resource hv
    unfold cmd_set_source
    rw [if_neg hres, if_neg hlang, if_neg (by simp [hv])]
    unfold set_source_file
    rw [hs]
    dsimp only
    rw [if_neg (by simp [hp, hr]), if_neg hlang, if_neg (by simp [hfe]),
      if_neg (by simp [hpi])]
    exact ⟨_, rfl⟩
  · intro root resource lang path cfg proj res slang hv hs hpi hcg hne hlang
    have hres : resource ≠ "" := valid_slug_ne_empty resource hv
    unfold cmd_set_translation
    rw [if_neg (by simp [hres, hlang]), if_neg (by simp [hv])]
    unfold set_translation
    rw [hs]
    dsimp only
    rw [if_neg (by simp [hpi]), hcg]
    dsimp only
    rw [if_neg hne]
    exact ⟨_, rfl⟩

/-- Witness for c5_slug_validation at concrete inputs: a malformed slug is
rejected with the validation error, and well-formed slugs let both
operations succeed. -/
theorem c5_slug_validation_witness :
    cmd_set_source (fun _ => true) "/proj" "bad slug!" "en" "x.po" []
        = Except.error CmdError.invalidSlug ∧
    (∃ cfg2, cmd_set_source (fun _ => true) "/proj" "p.r" "en" "x.po" []
        = Except.ok cfg2) ∧
    (∃ cfg2, cmd_set_translation "/proj" "p.r" "de" "x.po"
        [("p.r", [("source_lang", "en")])] = Except.ok cfg2) :=
  ⟨(c5_slug_validation.1 (fun _ => true) "/proj" "bad slug!" "en" "x.po" []
      (by decide) (by decide) (by decide)).1,
   c5_slug_validation.2.1 (fun _ => true) "/proj" "p.r" "en" "x.po" []
      (by decide) (by decide) (by decide) (by decide),
   c5_slug_validation.2.2 "/proj" "p.r" "de" "x.po" [("p.r", [("source_lang", "en")])]
      "p" "r" "en" (by decide) (by decide) (by decide) (by decide) (by decide) (by decide)⟩

/-- C6: setting a translation file for a language equal to the configured
source language of the resource fails with the invalid-operation error and,
the result being an error, the configuration is left unmodified; the
hypotheses state that the identifier splits, the path passes the root check
that precedes the guard, and the section carries that source language. -/
theorem c6_source_lang_guard :
    ∀ (root resource lang path : String) (cfg : Config) (proj res : String),
      strSplitOn '.' resource = [proj, res] →
      pyIn root (pyAbsPath root path) = true →
      configGet cfg (proj ++ "." ++ res) "source_lang" = some lang →
      set_translation root resource lang path cfg
        = Except.error CmdError.invalidOperation := by
  intro root resource lang path cfg proj res hs hpi hcg
  unfold set_translation
  rw [hs]
  dsimp only
  rw [if_neg (by simp [hpi]), hcg]
  dsimp only
  rw [if_pos rfl]

/-- Witness for c6_source_lang_guard at a concrete resource whose source
language is en. -/
theorem c6_source_lang_guard_witness :
    set_translation "/proj" "p.r" "en" "x.po" [("p.r", [("source_lang", "en")])]
      = Except.error CmdError.invalidOperation :=
  c6_source_lang_guard "/proj" "p.r" "en" "x.po" [("p.r", [("source_lang", "en")])]
    "p" "r" (by decide) (by decide) (by decide)

/-- C7: the root containment test of _set_source_file and _set_translation is
Python substring membership, not a descendant test.  With root
/home/user/proj, the sibling path /home/user/proj2/messages.po passes the
test although it is not a descendant of the root; set_translation accepts it
and registers ../proj2/messages.po, whose resolution against the root leaves
the root — the registered-paths invariant of the spec is violated. -/
theorem c7_root_check_is_substring :
    pyIn "/home/user/proj" (pyAbsPath "/home/user/proj" "/home/user/proj2/messages.po")
        = true ∧
    specDescendant "/home/user/proj"
        (pyAbsPath "/home/user/proj" "/home/user/proj2/messages.po") = false ∧
    set_translation "/home/user/proj" "p.r" "de" "/home/user/proj2/messages.po"
        [("p.r", [("source_file", "src/en.po"), ("source_lang", "en")])]
      = Except.ok [("p.r", [("source_file", "src/en.po"), ("source_lang", "en"),
          ("trans.de", "../proj2/messages.po")])] ∧
    specDescendant "/home/user/proj"
        (pyAbsPath "/home/user/proj"
          (get_full_path "/home/user/proj" "../proj2/messages.po")) = false := by
  refine ⟨by decide, by decide, by rfl, by decide⟩

/-- C8: cmd_pull rejects the fetchall flag together with a nonempty language
filter with the conflicting-options error; the validation is a pure function
of the options, performed before the project is read and before any request
descriptor is assembled. -/
theorem c8_fetchall_language_conflict :
    ∀ (langOpt resOpt : String) (o fsrc f sk : Bool) (mp : Int),
      langOpt ≠ "" →
      cmd_pull true langOpt resOpt o fsrc f sk mp
        = Except.error CmdError.conflictingOptions := by
  intro langOpt resOpt o fsrc f sk mp h
  unfold cmd_pull
  rw [if_pos (by simp [h])]

/-- Witness for c8_fetchall_language_conflict with a two-language filter. -/
theorem c8_fetchall_language_conflict_witness :
    cmd_pull true "de,fr" "" true false false false 50
      = Except.error CmdError.conflictingOptions :=
  c8_fetchall_language_conflict "de,fr" "" true false false false 50 (by decide)

/-- C9 counterexample: the claim says a pull with overwrite unset leaves the
existing file at every configured path unchanged; when one configured path
equals another configured path with .new appended, the fetch for the latter
overwrites the former, here replacing OLD at the configured path x.new. -/
theorem c9_counterexample :
    ("fr", "x.new") ∈ (LocalResource.mk "r" "en" "s.po"
        [("de", "x"), ("fr", "x.new")]).translations ∧
    (fun p => if p = "x.new" then some "OLD" else (none : Option String)) "x.new"
        = some "OLD" ∧
    project_pull false (fun _ lang => lang)
      [LocalResource.mk "r" "en" "s.po" [("de", "x"), ("fr", "x.new")]]
      (fun p => if p = "x.new" then some "OLD" else none) "x.new" = some "de" := by
  refine ⟨by decide, by decide, by decide⟩

/-- C9 amended: a pull with overwrite unset only ever writes paths of the
form q ++ .new for configured paths q, so every path that is no such
sibling — in particular a configured translation file that does not collide
with another configured path plus .new — keeps its bytes unchanged, and for
every fetched translation content is written at its .new sibling. -/
theorem c9_new_suffix_writes :
    (∀ (content : String → String → String) (rs : List LocalResource)
        (fs : String → Option String) (p : String),
        (∀ r ∈ rs, ∀ lf ∈ r.translations, lf.2 ++ ".new" ≠ p) →
        project_pull false content rs fs p = fs p) ∧
    (∀ (content : String → String → String) (rs : List LocalResource)
        (fs : String → Option String) (r : LocalResource) (lf : String × String),
        r ∈ rs → lf ∈ r.translations →
        ∃ v, project_pull false content rs fs (lf.2 ++ ".new") = some v) := by
  constructor
  · intro content rs fs p h
    exact pull_outer_frame false content p rs fs h
  · intro content rs fs r lf hr hlf
    exact project_pull_written false content rs fs r lf hr hlf

/-- Witness for c9_new_suffix_writes: a path that is not a .new sibling is
untouched, and the .new sibling of the configured file receives content. -/
theorem c9_new_suffix_writes_witness :
    project_pull false (fun _ lang => lang)
      [LocalResource.mk "r" "en" "s.po" [("de", "x")]] (fun _ => some "KEEP") "x"
      = some "KEEP" ∧
    (∃ v, project_pull false (fun _ lang => lang)
      [LocalResource.mk "r" "en" "s.po" [("de", "x")]] (fun _ => some "KEEP")
      ((("de", "x") : String × String).2 ++ ".new") = some v) :=
  ⟨c9_new_suffix_writes.1 (fun _ lang => lang)
      [LocalResource.mk "r" "en" "s.po" [("de", "x")]] (fun _ => some "KEEP") "x"
      (by decide),
   c9_new_suffix_writes.2 (fun _ lang => lang)
      [LocalResource.mk "r" "en" "s.po" [("de", "x")]] (fun _ => some "KEEP")
      (LocalResource.mk "r" "en" "s.po" [("de", "x")]) ("de", "x")
      (by decide) (by decide)⟩

/-- C10 counterexample: the claim says a local resource is classified as
existing on the remote whenever some remote slug occurs as a substring of
its slug; deleting from the list while iterating skips the element that
slides into the freed slot, so with remote slug a and locals ab, ac the
second local survives the scan although a occurs inside ac, and the push
exits before any upload. -/
theorem c10_counterexample :
    pyIn "a" "ac" = true ∧
    classifyLocals ["a"]
        [LocalResource.mk "ab" "en" "f1" [], LocalResource.mk "ac" "en" "f2" []]
      = [LocalResource.mk "ac" "en" "f2" []] ∧
    project_push false ["a"]
        [LocalResource.mk "ab" "en" "f1" [], LocalResource.mk "ac" "en" "f2" []]
        (fun _ => true)
      = PushResult.missingRemote [LocalResource.mk "ac" "en" "f2" []] := by
  refine ⟨by decide, by decide, by decide⟩

/-- C10 amended: the classification removes matching locals by deletion
during iteration, so a local resource is treated as existing exactly when
the skip-prone scan removes it; whenever the scan leaves survivors and force
is unset the push exits with the missing list before any upload is
attempted, and a local resource whose slug contains no remote slug as a
substring always survives the scan. -/
theorem c10_classification :
    (∀ (remotes : List String) (rs : List LocalResource) (ok : PushStep → Bool),
        classifyLocals remotes rs ≠ [] →
        project_push false remotes rs ok
          = PushResult.missingRemote (classifyLocals remotes rs)) ∧
    (∀ (remotes : List String) (rs : List LocalResource) (r : LocalResource),
        r ∈ rs → (∀ name ∈ remotes, pyIn name r.resource_slug = false) →
        r ∈ classifyLocals remotes rs) := by
  constructor
  · intro remotes rs ok h
    unfold project_push
    rw [if_pos ⟨h, rfl⟩]
  · intro remotes rs r hmem hall
    exact classifyLocals_keeps remotes r rs hmem hall

/-- Witness for c10_classification: with no matching remote slug the local
survives and the push exits with it before any upload. -/
theorem c10_classification_witness :
    project_push false ["zz"] [LocalResource.mk "ab" "en" "f1" []] (fun _ => true)
        = PushResult.missingRemote
            (classifyLocals ["zz"] [LocalResource.mk "ab" "en" "f1" []]) ∧
    LocalResource.mk "ab" "en" "f1" []
        ∈ classifyLocals ["zz"] [LocalResource.mk "ab" "en" "f1" []] :=
  ⟨c10_classification.1 ["zz"] [LocalResource.mk "ab" "en" "f1" []] (fun _ => true)
      (by decide),
   c10_classification.2 ["zz"] [LocalResource.mk "ab" "en" "f1" []]
      (LocalResource.mk "ab" "en" "f1" []) (by decide) (by decide)⟩

end Tx
